import Mathlib

/-!
Verification development for the MT3620 dining philosophers sample
(src/Mt3620DiningPhilosophers/main.c).

The C program runs five philosopher threads (PhilPhunction) contending on
five pthread mutexes (forks) arranged in a ring.  We give a shallow
embedding of

* the acquisition loop of PhilPhunction (lines 58-79) as a deterministic
  function of an oracle listing, per loop iteration, the integer results
  of the blocking lock on the primary fork, of the secondary attempt
  (trylock while triesLeft > 0, blocking lock once it reaches 0), and the
  reading of the volatile terminationRequired flag at the loop condition;
* the full per-cycle behaviour (think, hungry, acquire, eat, release)
  as an event trace (fork operations, Log_Debug calls, GPIO writes,
  isEating / platesCounter updates);
* the five-thread system as an interleaved transition relation, one
  small-step per C statement that touches shared state, used to study
  deadlock;
* main's startup (mutex inits, thread creations, exit codes) and its
  shutdown path after the cancellation flag is observed.
-/

/-- A fork (mutex) operation performed by a philosopher thread, together
with the integer result the pthread call returned (0 = success). -/
inductive FOp where
  | lock : Nat → Int → FOp
  | trylock : Nat → Int → FOp
  | unlock : Nat → FOp
deriving DecidableEq

/-- Oracle entry for one iteration of the do-while acquisition loop:
`r1` is the result of `pthread_mutex_lock(forkLeft)` (line 65), `r2` the
result of the secondary attempt (lines 67-68), and `term` the value of
`terminationRequired` read at the loop condition (line 79). -/
structure Iter where
  r1 : Int
  r2 : Int
  term : Bool
deriving DecidableEq

/-- Record of one executed iteration of the acquisition loop: the local
`forkLeft`, `forkRight`, `triesLeft`, `swapped` values at the start of the
iteration and the two pthread results. -/
structure IterRec where
  forkLeft : Nat
  forkRight : Nat
  triesLeft : Int
  swapped : Nat
  r1 : Int
  r2 : Int
deriving DecidableEq

/-- Local state at exit of the acquisition loop: the last value of
`failed` and the final `forkLeft`, `forkRight`, `triesLeft`, `swapped`. -/
structure AcqFinal where
  failed : Int
  forkLeft : Nat
  forkRight : Nat
  triesLeft : Int
  swapped : Nat
deriving DecidableEq

/-- The do-while acquisition loop of PhilPhunction (main.c lines 62-79).
Each iteration: `failed = pthread_mutex_lock(forkLeft)`, then `failed`
is overwritten with the secondary attempt (trylock while `triesLeft > 0`,
blocking lock otherwise); on `failed ≠ 0` the thread unlocks `forkLeft`,
swaps the two fork pointers and decrements `triesLeft`; the loop runs
while `failed && !terminationRequired`.  Returns the executed iteration
records and, when the loop exits within the oracle, the exit state. -/
def acqLoop (p s : Nat) (tl : Int) (sw : Nat) :
    List Iter → List IterRec × Option AcqFinal
  | [] => ([], none)
  | it :: rest =>
    let rec0 : IterRec := ⟨p, s, tl, sw, it.r1, it.r2⟩
    if it.r2 = 0 then
      ([rec0], some ⟨0, p, s, tl, sw⟩)
    else
      let sw2 := if sw = 0 then 1 else 0
      if it.term then
        ([rec0], some ⟨it.r2, s, p, tl - 1, sw2⟩)
      else
        let res := acqLoop s p (tl - 1) sw2 rest
        (rec0 :: res.1, res.2)

/-- Fork operations performed by one iteration of the acquisition loop. -/
def iterTrace (r : IterRec) : List FOp :=
  FOp.lock r.forkLeft r.r1 ::
    (if 0 < r.triesLeft then FOp.trylock r.forkRight r.r2
     else FOp.lock r.forkRight r.r2) ::
    (if r.r2 = 0 then [] else [FOp.unlock r.forkLeft])

/-- Fork operations performed by a run of the acquisition loop. -/
def acqTrace (recs : List IterRec) : List FOp := (recs.map iterTrace).flatten

/-- One step of the held-fork bookkeeping: a lock or trylock that
returned 0 adds the fork, an unlock removes it. -/
def heldStep (h : List Nat) : FOp → List Nat
  | FOp.lock f r => if r = 0 then h.insert f else h
  | FOp.trylock f r => if r = 0 then h.insert f else h
  | FOp.unlock f => h.erase f

/-- Forks held after performing a list of fork operations. -/
def heldAfter (h : List Nat) (t : List FOp) : List Nat := t.foldl heldStep h

/-- True when the operation list unlocks some fork that is not held at
that point (releasing a mutex the thread never acquired). -/
def hasBadUnlock (h : List Nat) : List FOp → Bool
  | [] => false
  | op :: rest =>
    (match op with
     | FOp.unlock f => !(h.contains f)
     | _ => false) || hasBadUnlock (heldStep h op) rest

/-- Events of a philosopher thread's cycle: fork operations, the
Log_Debug calls it performs, nanosleep, writes to `phil->isEating`,
the `platesCounter` increment, and `GPIO_SetValue` writes (`true` is
the Low/busy value, with the call's integer result). -/
inductive Ev where
  | fop : FOp → Ev
  | logThinking : Ev
  | logHungry : Ev
  | logTakesFork : Ev
  | logSwitching : Ev
  | logEating : Ev
  | sleep : Ev
  | setEating : Bool → Ev
  | incPlates : Ev
  | gpio : Bool → Int → Ev
deriving DecidableEq

/-- Events of one iteration of the acquisition loop, interleaving the
Log_Debug calls of lines 66, 69 and 71 with the fork operations. -/
def iterEvents (r : IterRec) : List Ev :=
  Ev.fop (FOp.lock r.forkLeft r.r1) :: Ev.logTakesFork ::
    Ev.fop (if 0 < r.triesLeft then FOp.trylock r.forkRight r.r2
            else FOp.lock r.forkRight r.r2) :: Ev.logTakesFork ::
    (if r.r2 = 0 then [] else [Ev.logSwitching, Ev.fop (FOp.unlock r.forkLeft)])

/-- Per-cycle oracle: acquisition-loop outcomes and the results of the
two GPIO_SetValue calls of the eating branch. -/
structure CycleOracle where
  iters : List Iter
  g1 : Int
  g2 : Int
deriving DecidableEq

/-- Events of the eating branch (main.c lines 81-92): set isEating,
increment platesCounter, GPIO Low, log, sleep, unlock right then left,
clear isEating, GPIO High. -/
def eatEvents (f : AcqFinal) (g1 g2 : Int) : List Ev :=
  [Ev.setEating true, Ev.incPlates, Ev.gpio true g1, Ev.logEating, Ev.sleep,
   Ev.fop (FOp.unlock f.forkRight), Ev.fop (FOp.unlock f.forkLeft),
   Ev.setEating false, Ev.gpio false g2]

/-- One cycle of the while loop of PhilPhunction (lines 53-93): think and
sleep, reload the fork pointers from the philosopher record, reset
`triesLeft` to 2 (but not `swapped`, which line 50 initialises once),
run the acquisition loop, and on `!failed` run the eating branch.
Returns the events and, when the acquisition loop exited, its state. -/
def cycleEvents (p s : Nat) (sw : Nat) (co : CycleOracle) :
    List Ev × Option AcqFinal :=
  let res := acqLoop p s 2 sw co.iters
  let acqEvs := (res.1.map iterEvents).flatten
  match res.2 with
  | none => ([Ev.logThinking, Ev.sleep, Ev.logHungry] ++ acqEvs, none)
  | some f =>
    if f.failed = 0 then
      ([Ev.logThinking, Ev.sleep, Ev.logHungry] ++ acqEvs ++
        eatEvents f co.g1 co.g2, some f)
    else
      ([Ev.logThinking, Ev.sleep, Ev.logHungry] ++ acqEvs, some f)

/-- The thread function PhilPhunction as a function of the per-cycle
oracles: each list entry is one executed cycle of the while loop, after
which `terminationRequired` is observed true at line 53 and the function
returns.  `none` when some cycle's acquisition oracle is exhausted (the
thread is still inside the do-while loop). -/
def philPhunction (p s : Nat) (sw : Nat) : List CycleOracle → Option (List Ev)
  | [] => some []
  | co :: rest =>
    match cycleEvents p s sw co with
    | (_, none) => none
    | (evs, some f) =>
      match philPhunction p s f.swapped rest with
      | none => none
      | some evs2 => some (evs ++ evs2)

/-- Value of `phil->platesCounter` after a list of events, starting
from `c`: only `incPlates` (line 83) changes it, by +1. -/
def platesAfter : Nat → List Ev → Nat
  | c, [] => c
  | c, Ev.incPlates :: rest => platesAfter (c + 1) rest
  | c, _ :: rest => platesAfter c rest

/-- The fork operations among a list of events. -/
def fops : List Ev → List FOp :=
  List.filterMap (fun e => match e with | Ev.fop op => some op | _ => none)

/-- Whether an event is one of the Log_Debug calls. -/
def isLog : Ev → Bool
  | Ev.logThinking | Ev.logHungry | Ev.logTakesFork
  | Ev.logSwitching | Ev.logEating => true
  | _ => false

/-- The Log_Debug events among a list of events. -/
def logsOf (l : List Ev) : List Ev := l.filter isLog

/-- Erase the integer results of GPIO writes, keeping everything else. -/
def scrubGpio : Ev → Ev
  | Ev.gpio v _ => Ev.gpio v 0
  | e => e

/-- Number of iterations that attempted the secondary fork with the
non-blocking trylock (those with `triesLeft > 0`, line 67). -/
def probeCount (recs : List IterRec) : Nat :=
  (recs.filter (fun r => decide (0 < r.triesLeft))).length

/-- True when no trylock iteration occurs after a blocking-secondary
iteration. -/
def noProbeAfterBlocking : List IterRec → Bool
  | [] => true
  | r :: rest =>
    if 0 < r.triesLeft then noProbeAfterBlocking rest
    else rest.all (fun x => decide (x.triesLeft ≤ 0))

/-- True when the list is exactly `t, t-1, t-2, ...`. -/
def stepDown : Int → List Int → Bool
  | _, [] => true
  | t, a :: rest => decide (a = t) && stepDown (t - 1) rest

/-- Oracle in which every blocking lock returns 0, `terminationRequired`
stays false, the trylock results are the given list, and a final
successful iteration ends the loop. -/
def encOracle (fails : List Int) : List Iter :=
  fails.map (fun r => Iter.mk 0 r false) ++ [Iter.mk 0 0 false]

/-- Replace the primary-lock result of an oracle entry by 0. -/
def zeroPrimary (it : Iter) : Iter := ⟨0, it.r2, it.term⟩

/-- Resource operations in the vocabulary of the specification's
acquisition routine: blocking acquire, non-blocking try-acquire (with
the not-available code it returned), and release. -/
inductive SOp where
  | acquire : Nat → SOp
  | tryAcq : Nat → Int → SOp
  | release : Nat → SOp
deriving DecidableEq

/-- Project a concrete fork operation to the specification vocabulary. -/
def projFOp : FOp → SOp
  | FOp.lock f _ => SOp.acquire f
  | FOp.trylock f r => SOp.tryAcq f r
  | FOp.unlock f => SOp.release f

/-- The specification's acquisition routine, written from its words:
keep a pair `(primary, secondary)` and a `triesLeft` counter;
(1) blockingly acquire `primary`; (2) if `triesLeft > 0` try-acquire
`secondary`, once it reaches 0 blockingly acquire it; (3) on a failed
try-acquire release `primary`, swap the pair, decrement `triesLeft` and
retry; (4) on success both are held.  Consumes one try-acquire outcome
per probe (0 = success); returns the operation trace and the final
`(primary, secondary)` pair. -/
def specAcquisition (p s : Nat) : Nat → List Int → Option (List SOp × Nat × Nat)
  | 0, _ => some ([SOp.acquire p, SOp.acquire s], p, s)
  | _ + 1, [] => none
  | n + 1, r :: rest =>
    if r = 0 then some ([SOp.acquire p, SOp.tryAcq s r], p, s)
    else
      match specAcquisition s p n rest with
      | none => none
      | some (t, q) =>
        some (SOp.acquire p :: SOp.tryAcq s r :: SOp.release p :: t, q)

/-- Local state of one philosopher thread in the interleaved five-thread
system, at statement granularity of main.c:
`thinking` = at the top of the while loop (lines 53-61);
`acquiring` = about to call the blocking `pthread_mutex_lock(forkLeft)`
of line 65; `lockedPrimary` = holding `forkLeft`, about to attempt
`forkRight` (lines 67-68); `failedSecondary` = the attempt failed, still
holding `forkLeft`, about to run lines 72-77 (unlock, swap, decrement);
`eating` = holding both forks, lines 81-87, about to release them. -/
inductive PhilSt where
  | thinking : PhilSt
  | acquiring : Fin 5 → Fin 5 → Int → PhilSt
  | lockedPrimary : Fin 5 → Fin 5 → Int → PhilSt
  | failedSecondary : Fin 5 → Fin 5 → Int → PhilSt
  | eating : Fin 5 → Fin 5 → PhilSt
deriving DecidableEq

/-- Forks held by a philosopher in a given local state: `forkLeft` once
the primary lock returned, both while eating. -/
def holdsF : PhilSt → Fin 5 → Bool
  | PhilSt.thinking, _ => false
  | PhilSt.acquiring _ _ _, _ => false
  | PhilSt.lockedPrimary fl _ _, f => decide (fl = f)
  | PhilSt.failedSecondary fl _ _, f => decide (fl = f)
  | PhilSt.eating fl fr, f => decide (fl = f) || decide (fr = f)

/-- A fork is free when no thread holds it. -/
def forkFree (g : List PhilSt) (f : Fin 5) : Bool :=
  g.all (fun p => !(holdsF p f))

/-- main.c line 137: `phil->forkLeft = &forks[i]`. -/
def forkLeftIdx (i : Fin 5) : Fin 5 := i

/-- main.c line 138: `phil->forkRight = &forks[(i + 1) % 5]`. -/
def forkRightIdx (i : Fin 5) : Fin 5 := ⟨(i.val + 1) % 5, by omega⟩

/-- Whether philosopher `i` is wired to request fork `f`. -/
def requestsFork (i f : Fin 5) : Bool :=
  decide (f = forkLeftIdx i) || decide (f = forkRightIdx i)

/-- One interleaved step of thread `i` (with `terminationRequired`
false).  A blocking lock is enabled only when the fork is free; the
trylock of line 67 atomically tests the fork and either takes it or
fails; the failure handling of lines 72-77 is a separate step, during
which the primary fork is still held.  Cancellation cannot unblock a
thread inside `pthread_mutex_lock`, so it is irrelevant to whether a
blocked configuration persists. -/
def pstep (g : List PhilSt) (i : Fin 5) : Option (List PhilSt) :=
  match g.get? i.val with
  | none => none
  | some st =>
    match st with
    | PhilSt.thinking =>
      some (g.set i.val (PhilSt.acquiring (forkLeftIdx i) (forkRightIdx i) 2))
    | PhilSt.acquiring fl fr tl =>
      if forkFree g fl then some (g.set i.val (PhilSt.lockedPrimary fl fr tl))
      else none
    | PhilSt.lockedPrimary fl fr tl =>
      if 0 < tl then
        if forkFree g fr then some (g.set i.val (PhilSt.eating fl fr))
        else some (g.set i.val (PhilSt.failedSecondary fl fr tl))
      else
        if forkFree g fr then some (g.set i.val (PhilSt.eating fl fr))
        else none
    | PhilSt.failedSecondary fl fr tl =>
      some (g.set i.val (PhilSt.acquiring fr fl (tl - 1)))
    | PhilSt.eating _ _ => some (g.set i.val PhilSt.thinking)

/-- Run a schedule (a list of thread indices, each performing one step).
`none` when some scheduled thread has no enabled step. -/
def runSched (g : List PhilSt) : List (Fin 5) → Option (List PhilSt)
  | [] => some g
  | i :: rest =>
    match pstep g i with
    | none => none
    | some g2 => runSched g2 rest

/-- Initial global state: all five threads at the top of their loop. -/
def initSt : List PhilSt := List.replicate 5 PhilSt.thinking

/-- One round in which each of the five threads takes one step. -/
def roundAll : List (Fin 5) := [0, 1, 2, 3, 4]

/-- Eight lockstep rounds: go hungry; lock the left fork; fail the
trylock of the right fork; release-swap-decrement; lock the (swapped)
primary; fail the trylock again; release-swap-decrement back to the
original order with `triesLeft = 0`; lock the left fork again. -/
def deadSched : List (Fin 5) := (List.replicate 8 roundAll).flatten

/-- The circular-wait configuration: every philosopher `i` holds fork
`i` with `triesLeft = 0` and is blocked in the blocking
`pthread_mutex_lock` of fork `i + 1 mod 5`. -/
def deadSt : List PhilSt :=
  [PhilSt.lockedPrimary 0 1 0, PhilSt.lockedPrimary 1 2 0,
   PhilSt.lockedPrimary 2 3 0, PhilSt.lockedPrimary 3 4 0,
   PhilSt.lockedPrimary 4 0 0]

/-- Number of forks a philosopher state holds. -/
def heldCount (p : PhilSt) : Nat :=
  ((List.finRange 5).filter (fun f => holdsF p f)).length

/-- Operations main performs ("MEv" = main-thread event): the startup
log, a mutex initialisation or thread creation with its result, one
status line of the monitor loop, the one-second sleep, the exit log,
and — never emitted by this program, but available on the platform —
joining a thread and destroying a mutex. -/
inductive MEv where
  | logStarting : MEv
  | initMutex : Nat → Int → MEv
  | createThread : Nat → Int → MEv
  | logStatus : MEv
  | sleep : MEv
  | logExiting : MEv
  | joinThread : Nat → MEv
  | destroyMutex : Nat → MEv
deriving DecidableEq

/-- The mutex-initialisation loop of main.c lines 126-132: initialise
forks in index order, `exit(1)` at the first failure.  Returns the
events and whether all initialisations succeeded. -/
def runInits (res : Nat → Int) : List Nat → List MEv × Bool
  | [] => ([], true)
  | i :: rest =>
    if res i = 0 then
      let r := runInits res rest
      (MEv.initMutex i (res i) :: r.1, r.2)
    else ([MEv.initMutex i (res i)], false)

/-- The thread-creation loop of main.c lines 134-147: create the
philosopher threads in index order, `exit(1)` at the first failure. -/
def runCreates (res : Nat → Int) : List Nat → List MEv × Bool
  | [] => ([], true)
  | i :: rest =>
    if res i = 0 then
      let r := runCreates res rest
      (MEv.createThread i (res i) :: r.1, r.2)
    else ([MEv.createThread i (res i)], false)

/-- main (lines 100-166) as a function of the five mutex-init results,
the five thread-creation results, and the number of monitor-loop
iterations before `terminationRequired` is observed: log the start,
initialise the mutexes (exit code 1 at the first failure), create the
threads (exit code 1 at the first failure), print a status line and
sleep each tick, and after cancellation log and return 0 — with no
thread join and no mutex destruction.  Returns (events, exit code). -/
def mainRun (initRes createRes : Nat → Int) (ticks : Nat) : List MEv × Int :=
  let ir := runInits initRes [0, 1, 2, 3, 4]
  if ir.2 then
    let cr := runCreates createRes [0, 1, 2, 3, 4]
    if cr.2 then
      (MEv.logStarting :: ir.1 ++ cr.1 ++
        (List.replicate ticks [MEv.logStatus, MEv.sleep]).flatten ++
        [MEv.logExiting], 0)
    else (MEv.logStarting :: ir.1 ++ cr.1, 1)
  else (MEv.logStarting :: ir.1, 1)

/-- Whether a main-thread event is a `pthread_join`. -/
def isJoin : MEv → Bool
  | MEv.joinThread _ => true
  | _ => false

/-- Whether a main-thread event is a `pthread_mutex_destroy`. -/
def isDestroy : MEv → Bool
  | MEv.destroyMutex _ => true
  | _ => false

/-- Number of initialisation attempts of mutex `j` in an event list. -/
def countInitEv (j : Nat) : List MEv → Nat
  | [] => 0
  | MEv.initMutex i _ :: rest => (if i = j then 1 else 0) + countInitEv j rest
  | _ :: rest => countInitEv j rest

/-- Number of creation attempts of thread `j` in an event list. -/
def countCreateEv (j : Nat) : List MEv → Nat
  | [] => 0
  | MEv.createThread i _ :: rest => (if i = j then 1 else 0) + countCreateEv j rest
  | _ :: rest => countCreateEv j rest

theorem heldAfter_append (h : List Nat) (t1 t2 : List FOp) :
    heldAfter h (t1 ++ t2) = heldAfter (heldAfter h t1) t2 := by
  simp [heldAfter, List.foldl_append]

theorem acqLoop_cons_succ (p s : Nat) (tl : Int) (sw : Nat) (it : Iter)
    (rest : List Iter) (h2 : it.r2 = 0) :
    acqLoop p s tl sw (it :: rest) =
      ([⟨p, s, tl, sw, it.r1, it.r2⟩], some ⟨0, p, s, tl, sw⟩) := by
  simp [acqLoop, h2]

theorem acqLoop_cons_term (p s : Nat) (tl : Int) (sw : Nat) (it : Iter)
    (rest : List Iter) (h2 : it.r2 ≠ 0) (ht : it.term = true) :
    acqLoop p s tl sw (it :: rest) =
      ([⟨p, s, tl, sw, it.r1, it.r2⟩],
       some ⟨it.r2, s, p, tl - 1, if sw = 0 then 1 else 0⟩) := by
  simp [acqLoop, h2, ht]

theorem acqLoop_cons_cont (p s : Nat) (tl : Int) (sw : Nat) (it : Iter)
    (rest : List Iter) (h2 : it.r2 ≠ 0) (ht : it.term = false) :
    acqLoop p s tl sw (it :: rest) =
      (⟨p, s, tl, sw, it.r1, it.r2⟩ ::
         (acqLoop s p (tl - 1) (if sw = 0 then 1 else 0) rest).1,
       (acqLoop s p (tl - 1) (if sw = 0 then 1 else 0) rest).2) := by
  simp [acqLoop, h2, ht]

theorem acq_triesLeft_stepDown :
    ∀ (o : List Iter) (p s : Nat) (tl : Int) (sw : Nat),
      stepDown tl ((acqLoop p s tl sw o).1.map IterRec.triesLeft) = true := by
  intro o
  induction o with
  | nil => intro p s tl sw; simp [acqLoop, stepDown]
  | cons it rest ih =>
    intro p s tl sw
    by_cases h2 : it.r2 = 0
    · rw [acqLoop_cons_succ p s tl sw it rest h2]
      simp [stepDown]
    · cases ht : it.term with
      | true =>
        rw [acqLoop_cons_term p s tl sw it rest h2 ht]
        simp [stepDown]
      | false =>
        rw [acqLoop_cons_cont p s tl sw it rest h2 ht]
        simp [stepDown, ih s p (tl - 1) (if sw = 0 then 1 else 0)]

theorem acq_probeCount_le :
    ∀ (o : List Iter) (p s : Nat) (tl : Int) (sw : Nat),
      probeCount (acqLoop p s tl sw o).1 ≤ tl.toNat := by
  intro o
  induction o with
  | nil => intro p s tl sw; simp [acqLoop, probeCount]
  | cons it rest ih =>
    intro p s tl sw
    by_cases h2 : it.r2 = 0
    · rw [acqLoop_cons_succ p s tl sw it rest h2]
      by_cases hp : 0 < tl
      · simp [probeCount, List.filter_cons, hp]; omega
      · simp [probeCount, List.filter_cons, hp]
    · cases ht : it.term with
      | true =>
        rw [acqLoop_cons_term p s tl sw it rest h2 ht]
        by_cases hp : 0 < tl
        · simp [probeCount, List.filter_cons, hp]; omega
        · simp [probeCount, List.filter_cons, hp]
      | false =>
        rw [acqLoop_cons_cont p s tl sw it rest h2 ht]
        have h := ih s p (tl - 1) (if sw = 0 then 1 else 0)
        simp only [probeCount, List.filter_cons, decide_eq_true_eq] at h ⊢
        split <;> (try simp only [List.length_cons]) <;> omega

theorem acq_all_blocking :
    ∀ (o : List Iter) (p s : Nat) (tl : Int) (sw : Nat), tl ≤ 0 →
      ∀ x ∈ (acqLoop p s tl sw o).1, x.triesLeft ≤ 0 := by
  intro o
  induction o with
  | nil => intro p s tl sw h; simp [acqLoop]
  | cons it rest ih =>
    intro p s tl sw h
    by_cases h2 : it.r2 = 0
    · rw [acqLoop_cons_succ p s tl sw it rest h2]
      simp [h]
    · cases ht : it.term with
      | true =>
        rw [acqLoop_cons_term p s tl sw it rest h2 ht]
        simp [h]
      | false =>
        rw [acqLoop_cons_cont p s tl sw it rest h2 ht]
        intro x hx
        rcases List.mem_cons.mp hx with hx | hx
        · subst hx; exact h
        · exact ih s p (tl - 1) (if sw = 0 then 1 else 0) (by omega) x hx

theorem acq_noProbeAfterBlocking :
    ∀ (o : List Iter) (p s : Nat) (tl : Int) (sw : Nat),
      noProbeAfterBlocking (acqLoop p s tl sw o).1 = true := by
  intro o
  induction o with
  | nil => intro p s tl sw; simp [acqLoop, noProbeAfterBlocking]
  | cons it rest ih =>
    intro p s tl sw
    by_cases h2 : it.r2 = 0
    · rw [acqLoop_cons_succ p s tl sw it rest h2]
      simp [noProbeAfterBlocking]
    · cases ht : it.term with
      | true =>
        rw [acqLoop_cons_term p s tl sw it rest h2 ht]
        simp [noProbeAfterBlocking]
      | false =>
        rw [acqLoop_cons_cont p s tl sw it rest h2 ht]
        simp only [noProbeAfterBlocking]
        split
        · exact ih s p (tl - 1) (if sw = 0 then 1 else 0)
        · rename_i hnp
          have hb : tl - 1 ≤ 0 := by omega
          simp only [List.all_eq_true, decide_eq_true_eq]
          exact acq_all_blocking rest s p (tl - 1) (if sw = 0 then 1 else 0) hb

/-- Claim C3: in one acquisition attempt (`triesLeft` reset to 2 at the
start of the hungry phase), at most 2 iterations attempt the secondary
fork with the non-blocking trylock; no trylock iteration occurs after a
blocking-secondary iteration; and the retry counter takes exactly the
values 2, 1, 0, ... across the iterations, never rising. -/
theorem at_most_two_probes_then_blocking (p s sw : Nat) (o : List Iter) :
    probeCount (acqLoop p s 2 sw o).1 ≤ 2 ∧
    noProbeAfterBlocking (acqLoop p s 2 sw o).1 = true ∧
    stepDown 2 ((acqLoop p s 2 sw o).1.map IterRec.triesLeft) = true :=
  ⟨acq_probeCount_le o p s 2 sw, acq_noProbeAfterBlocking o p s 2 sw,
    acq_triesLeft_stepDown o p s 2 sw⟩

/-- Claim C7: the controller wires philosopher `i` to left fork
`forks[i]` and right fork `forks[(i+1) % 5]` (main.c lines 137-138);
hence every philosopher requests exactly two forks and every fork is
requested by exactly the two neighbouring philosophers `f` and
`f - 1 mod 5`. -/
theorem ring_wiring_left_right :
    (∀ i : Fin 5, forkLeftIdx i = i ∧ (forkRightIdx i).val = (i.val + 1) % 5) ∧
    (∀ i : Fin 5, ((List.finRange 5).filter (fun f => requestsFork i f)).length = 2) ∧
    (∀ f : Fin 5, ((List.finRange 5).filter (fun i => requestsFork i f)).length = 2) ∧
    (∀ j f : Fin 5, requestsFork j f = true ↔ (j = f ∨ (j.val + 1) % 5 = f.val)) := by
  decide

/-- Claim C2 (refuting execution): under the interleaving in which all
five threads move in lockstep — all go hungry, all lock their left fork,
all fail the trylock of their right fork, all release-swap-decrement,
all lock the new primary, all fail the trylock again, all swap back with
`triesLeft = 0`, all lock their left fork again — the system reaches the
state in which every philosopher holds exactly one fork and is blocked
in a blocking `pthread_mutex_lock` of its neighbour's fork; no thread
has an enabled step there, so every continuation of the schedule is
stuck: the circular-wait deadlock the specification rules out is
reachable. -/
theorem deadlock_reachable :
    runSched initSt deadSched = some deadSt ∧
    (∀ i : Fin 5, pstep deadSt i = none) ∧
    deadSt.map heldCount = [1, 1, 1, 1, 1] ∧
    (∀ (i : Fin 5) (rest : List (Fin 5)), runSched deadSt (i :: rest) = none) := by
  refine ⟨by decide, by decide, by decide, ?_⟩
  intro i rest
  have hall : ∀ j : Fin 5, pstep deadSt j = none := by decide
  simp [runSched, hall i]

/-- Claim C1: under the standing assumption that blocking
`pthread_mutex_lock` calls succeed (result 0) and cancellation is not
requested, a hungry phase — which initialises the local pair to
`(left, right)` and `triesLeft` to 2 — performs exactly the
specification's routine: for every possible sequence of at most two
failed probes followed by a successful secondary attempt, the loop's
fork-operation trace projects onto the trace of the specification
routine (blocking acquire of primary; trylock of secondary while
`triesLeft > 0`, blocking acquire once it is 0; on failure release
primary, swap, decrement, retry), it exits with `failed = 0`, and it
then holds exactly the two forks of its final (primary, secondary)
pair. -/
theorem acq_loop_refines_spec_routine (p s : Nat) (fails : List Int)
    (hlen : fails.length ≤ 2) (hnz : ∀ x ∈ fails, x ≠ 0) :
    ∃ f : AcqFinal,
      (acqLoop p s 2 0 (encOracle fails)).2 = some f ∧ f.failed = 0 ∧
      specAcquisition p s 2 (fails ++ [0]) =
        some ((acqTrace (acqLoop p s 2 0 (encOracle fails)).1).map projFOp,
              f.forkLeft, f.forkRight) ∧
      (∀ x, x ∈ heldAfter [] (acqTrace (acqLoop p s 2 0 (encOracle fails)).1) ↔
        (x = f.forkLeft ∨ x = f.forkRight)) := by
  rcases fails with _ | ⟨a, _ | ⟨b, _ | ⟨c, rest⟩⟩⟩
  · refine ⟨⟨0, p, s, 2, 0⟩, ?_, rfl, ?_, ?_⟩
    · simp [encOracle, acqLoop]
    · simp [specAcquisition, encOracle, acqLoop, acqTrace, iterTrace, projFOp]
    · intro x
      simp [encOracle, acqLoop, acqTrace, iterTrace, heldAfter, heldStep,
        List.mem_insert_iff]
      tauto
  · have ha : a ≠ 0 := hnz a (by simp)
    refine ⟨⟨0, s, p, 1, 1⟩, ?_, rfl, ?_, ?_⟩
    · simp [encOracle, acqLoop, ha]
    · simp [specAcquisition, ha, encOracle, acqLoop, acqTrace, iterTrace, projFOp]
    · intro x
      simp [encOracle, acqLoop, ha, acqTrace, iterTrace, heldAfter, heldStep,
        List.mem_insert_iff]
      tauto
  · have ha : a ≠ 0 := hnz a (by simp)
    have hb : b ≠ 0 := hnz b (by simp)
    refine ⟨⟨0, p, s, 0, 0⟩, ?_, rfl, ?_, ?_⟩
    · simp [encOracle, acqLoop, ha, hb]
    · simp [specAcquisition, ha, hb, encOracle, acqLoop, acqTrace, iterTrace,
        projFOp]
    · intro x
      simp [encOracle, acqLoop, ha, hb, acqTrace, iterTrace, heldAfter,
        heldStep, List.mem_insert_iff]
      tauto
  · exfalso
    simp [List.length_cons] at hlen

theorem acq_loop_refines_spec_routine_witness :
    (([(1 : Int), 1]).length ≤ 2) ∧ (∀ x ∈ [(1 : Int), 1], x ≠ 0) ∧
    (∃ f : AcqFinal,
      (acqLoop 0 1 2 0 (encOracle [1, 1])).2 = some f ∧ f.failed = 0 ∧
      specAcquisition 0 1 2 ([1, 1] ++ [0]) =
        some ((acqTrace (acqLoop 0 1 2 0 (encOracle [1, 1])).1).map projFOp,
              f.forkLeft, f.forkRight) ∧
      (∀ x, x ∈ heldAfter [] (acqTrace (acqLoop 0 1 2 0 (encOracle [1, 1])).1) ↔
        (x = f.forkLeft ∨ x = f.forkRight))) :=
  ⟨by decide, by decide,
    acq_loop_refines_spec_routine 0 1 [1, 1] (by decide) (by decide)⟩

theorem acqTrace_cons (r : IterRec) (l : List IterRec) :
    acqTrace (r :: l) = iterTrace r ++ acqTrace l := by
  simp [acqTrace]

theorem heldAfter_iter_failed (r : IterRec) (h : r.r2 ≠ 0) :
    heldAfter [] (iterTrace r) = [] := by
  by_cases h1 : r.r1 = 0 <;> by_cases hp : 0 < r.triesLeft <;>
    simp [iterTrace, heldAfter, heldStep, h, h1, hp]

theorem heldAfter_iter_success (r : IterRec) (h : r.r2 = 0) :
    heldAfter [] (iterTrace r) = [r.forkRight, r.forkLeft] ∨
    heldAfter [] (iterTrace r) = [r.forkRight] := by
  by_cases h1 : r.r1 = 0
  · by_cases hfr : r.forkRight = r.forkLeft
    · right
      by_cases hp : 0 < r.triesLeft <;>
        simp [iterTrace, heldAfter, heldStep, h, h1, hp, hfr, List.insert]
    · left
      by_cases hp : 0 < r.triesLeft <;>
        simp [iterTrace, heldAfter, heldStep, h, h1, hp, List.insert, hfr]
  · right
    by_cases hp : 0 < r.triesLeft <;>
      simp [iterTrace, heldAfter, heldStep, h, h1, hp]

theorem acq_held_none :
    ∀ (o : List Iter) (p s : Nat) (tl : Int) (sw : Nat) (recs : List IterRec),
      acqLoop p s tl sw o = (recs, none) →
      heldAfter [] (acqTrace recs) = [] := by
  intro o
  induction o with
  | nil =>
    intro p s tl sw recs hn
    rw [acqLoop] at hn
    injection hn with hr hf
    subst hr
    simp [acqTrace, heldAfter]
  | cons it rest ih =>
    intro p s tl sw recs hn
    by_cases h2 : it.r2 = 0
    · rw [acqLoop_cons_succ p s tl sw it rest h2] at hn
      injection hn with hr hf
      cases hf
    · cases ht : it.term with
      | true =>
        rw [acqLoop_cons_term p s tl sw it rest h2 ht] at hn
        injection hn with hr hf
        cases hf
      | false =>
        rw [acqLoop_cons_cont p s tl sw it rest h2 ht] at hn
        injection hn with hr hf
        subst hr
        rw [acqTrace_cons, heldAfter_append,
          heldAfter_iter_failed ⟨p, s, tl, sw, it.r1, it.r2⟩ h2]
        exact ih s p (tl - 1) (if sw = 0 then 1 else 0) _
          (by rw [← hf])

theorem acq_held_fail :
    ∀ (o : List Iter) (p s : Nat) (tl : Int) (sw : Nat) (recs : List IterRec)
      (f : AcqFinal), acqLoop p s tl sw o = (recs, some f) → f.failed ≠ 0 →
      heldAfter [] (acqTrace recs) = [] := by
  intro o
  induction o with
  | nil =>
    intro p s tl sw recs f hn hfail
    rw [acqLoop] at hn
    injection hn with hr hf
    cases hf
  | cons it rest ih =>
    intro p s tl sw recs f hn hfail
    by_cases h2 : it.r2 = 0
    · rw [acqLoop_cons_succ p s tl sw it rest h2] at hn
      injection hn with hr hf
      injection hf with hf2
      rw [← hf2] at hfail
      exact absurd rfl hfail
    · cases ht : it.term with
      | true =>
        rw [acqLoop_cons_term p s tl sw it rest h2 ht] at hn
        injection hn with hr hf
        subst hr
        simp [acqTrace, heldAfter_iter_failed ⟨p, s, tl, sw, it.r1, it.r2⟩ h2]
      | false =>
        rw [acqLoop_cons_cont p s tl sw it rest h2 ht] at hn
        injection hn with hr hf
        subst hr
        rw [acqTrace_cons, heldAfter_append,
          heldAfter_iter_failed ⟨p, s, tl, sw, it.r1, it.r2⟩ h2]
        exact ih s p (tl - 1) (if sw = 0 then 1 else 0) _ f
          (by rw [← hf]) hfail

theorem acq_held_succ :
    ∀ (o : List Iter) (p s : Nat) (tl : Int) (sw : Nat) (recs : List IterRec)
      (f : AcqFinal), acqLoop p s tl sw o = (recs, some f) → f.failed = 0 →
      heldAfter [] (acqTrace recs) = [f.forkRight, f.forkLeft] ∨
      heldAfter [] (acqTrace recs) = [f.forkRight] := by
  intro o
  induction o with
  | nil =>
    intro p s tl sw recs f hn hfail
    rw [acqLoop] at hn
    injection hn with hr hf
    cases hf
  | cons it rest ih =>
    intro p s tl sw recs f hn hfail
    by_cases h2 : it.r2 = 0
    · rw [acqLoop_cons_succ p s tl sw it rest h2] at hn
      injection hn with hr hf
      injection hf with hf2
      subst hr
      rw [← hf2]
      have := heldAfter_iter_success ⟨p, s, tl, sw, it.r1, it.r2⟩ h2
      simpa [acqTrace] using this
    · cases ht : it.term with
      | true =>
        rw [acqLoop_cons_term p s tl sw it rest h2 ht] at hn
        injection hn with hr hf
        injection hf with hf2
        rw [← hf2] at hfail
        exact absurd hfail h2
      | false =>
        rw [acqLoop_cons_cont p s tl sw it rest h2 ht] at hn
        injection hn with hr hf
        subst hr
        rw [acqTrace_cons, heldAfter_append,
          heldAfter_iter_failed ⟨p, s, tl, sw, it.r1, it.r2⟩ h2]
        exact ih s p (tl - 1) (if sw = 0 then 1 else 0) _ f
          (by rw [← hf]) hfail

theorem fops_append (a b : List Ev) : fops (a ++ b) = fops a ++ fops b := by
  simp [fops]

theorem fops_iterEvents (r : IterRec) : fops (iterEvents r) = iterTrace r := by
  by_cases h2 : r.r2 = 0 <;> by_cases hp : 0 < r.triesLeft <;>
    simp [fops, iterEvents, iterTrace, h2, hp]

theorem fops_acqEvs :
    ∀ recs : List IterRec, fops ((recs.map iterEvents).flatten) = acqTrace recs := by
  intro recs
  induction recs with
  | nil => simp [fops, acqTrace]
  | cons r l ih =>
    simp only [List.map_cons, List.flatten_cons, fops_append, fops_iterEvents,
      acqTrace_cons, ih]

theorem cycleEvents_eq_none (p s sw : Nat) (co : CycleOracle)
    (recs : List IterRec) (h : acqLoop p s 2 sw co.iters = (recs, none)) :
    cycleEvents p s sw co =
      ([Ev.logThinking, Ev.sleep, Ev.logHungry] ++ (recs.map iterEvents).flatten,
       none) := by
  simp [cycleEvents, h]

theorem cycleEvents_eq_succ (p s sw : Nat) (co : CycleOracle)
    (recs : List IterRec) (f : AcqFinal)
    (h : acqLoop p s 2 sw co.iters = (recs, some f)) (h0 : f.failed = 0) :
    cycleEvents p s sw co =
      ([Ev.logThinking, Ev.sleep, Ev.logHungry] ++ (recs.map iterEvents).flatten
        ++ eatEvents f co.g1 co.g2, some f) := by
  simp [cycleEvents, h, h0]

theorem cycleEvents_eq_fail (p s sw : Nat) (co : CycleOracle)
    (recs : List IterRec) (f : AcqFinal)
    (h : acqLoop p s 2 sw co.iters = (recs, some f)) (h0 : f.failed ≠ 0) :
    cycleEvents p s sw co =
      ([Ev.logThinking, Ev.sleep, Ev.logHungry] ++ (recs.map iterEvents).flatten,
       some f) := by
  simp [cycleEvents, h, h0]

theorem cycle_held (p s sw : Nat) (co : CycleOracle) (evs : List Ev)
    (f : AcqFinal) (h : cycleEvents p s sw co = (evs, some f)) :
    heldAfter [] (fops evs) = [] := by
  rcases hacq : acqLoop p s 2 sw co.iters with ⟨recs, fin⟩
  cases fin with
  | none =>
    rw [cycleEvents_eq_none p s sw co recs hacq] at h
    injection h with h1 h2
    cases h2
  | some f2 =>
    by_cases h0 : f2.failed = 0
    · rw [cycleEvents_eq_succ p s sw co recs f2 hacq h0] at h
      injection h with h1 h2
      subst h1
      have hfull : fops ([Ev.logThinking, Ev.sleep, Ev.logHungry] ++
          (recs.map iterEvents).flatten ++ eatEvents f2 co.g1 co.g2) =
          acqTrace recs ++ [FOp.unlock f2.forkRight, FOp.unlock f2.forkLeft] := by
        rw [fops_append, fops_append, fops_acqEvs]
        simp [fops, eatEvents]
      rw [hfull, heldAfter_append]
      rcases acq_held_succ co.iters p s 2 sw recs f2 hacq h0 with hh | hh <;>
        rw [hh] <;> simp [heldAfter, heldStep]
    · rw [cycleEvents_eq_fail p s sw co recs f2 hacq h0] at h
      injection h with h1 h2
      subst h1
      have hfull : fops ([Ev.logThinking, Ev.sleep, Ev.logHungry] ++
          (recs.map iterEvents).flatten) = acqTrace recs := by
        rw [fops_append, fops_acqEvs]
        simp [fops]
      rw [hfull]
      exact acq_held_fail co.iters p s 2 sw recs f2 hacq h0

/-- Claim C9: on every path on which the thread function returns — the
cancellation flag observed at the top of the cycle, possibly right after
an acquisition loop that exited through its `!terminationRequired`
condition with a failed attempt — the philosopher holds no fork: a
failed secondary attempt unlocks the primary before the loop condition
is re-read, and the eating branch unlocks both forks before the next
cycle check. -/
theorem thread_returns_holding_no_forks :
    ∀ (cos : List CycleOracle) (p s sw : Nat) (evs : List Ev),
      philPhunction p s sw cos = some evs → heldAfter [] (fops evs) = [] := by
  intro cos
  induction cos with
  | nil =>
    intro p s sw evs h
    rw [philPhunction] at h
    injection h with h
    subst h
    simp [fops, heldAfter]
  | cons co rest ih =>
    intro p s sw evs h
    rw [philPhunction] at h
    rcases hc : cycleEvents p s sw co with ⟨evs1, fin⟩
    rw [hc] at h
    cases fin with
    | none => simp at h
    | some f =>
      have h2 : (match philPhunction p s f.swapped rest with
          | none => (none : Option (List Ev))
          | some evs2 => some (evs1 ++ evs2)) = some evs := h
      rcases hp : philPhunction p s f.swapped rest with _ | evs2
      · rw [hp] at h2; cases h2
      · rw [hp] at h2
        injection h2 with h2
        subst h2
        rw [fops_append, heldAfter_append, cycle_held p s sw co evs1 f hc]
        exact ih p s f.swapped evs2 hp

theorem thread_returns_holding_no_forks_witness :
    heldAfter []
      (fops ((philPhunction 0 1 0 [⟨[⟨0, 0, false⟩], 0, 0⟩]).getD [])) = [] :=
  thread_returns_holding_no_forks [⟨[⟨0, 0, false⟩], 0, 0⟩] 0 1 0 _ (by decide)

theorem platesAfter_append :
    ∀ (l1 l2 : List Ev) (c : Nat),
      platesAfter c (l1 ++ l2) = platesAfter (platesAfter c l1) l2 := by
  intro l1
  induction l1 with
  | nil => intro l2 c; simp [platesAfter]
  | cons e l ih => intro l2 c; cases e <;> simp [platesAfter, ih]

theorem platesAfter_le : ∀ (l : List Ev) (c : Nat), c ≤ platesAfter c l := by
  intro l
  induction l with
  | nil => intro c; simp [platesAfter]
  | cons e rest ih =>
    intro c
    cases e <;> simp only [platesAfter] <;>
      first
        | exact ih c
        | exact le_trans (Nat.le_succ c) (ih (c + 1))

/-- Claim C5: whenever a cycle's acquisition loop exits with
`failed = 0`, the remainder of the cycle is exactly: set isEating,
increment platesCounter, signal the indicator busy (GPIO Low), log,
sleep a randomized interval, release the right then the left fork, clear
isEating, signal the indicator idle (GPIO High); and along any run of
the thread function the platesCounter is monotonically nondecreasing. -/
theorem eat_sequence_and_counter_monotone :
    (∀ (p s sw : Nat) (co : CycleOracle) (evs : List Ev) (f : AcqFinal),
      cycleEvents p s sw co = (evs, some f) → f.failed = 0 →
      ∃ front, evs = front ++
        [Ev.setEating true, Ev.incPlates, Ev.gpio true co.g1, Ev.logEating,
         Ev.sleep, Ev.fop (FOp.unlock f.forkRight),
         Ev.fop (FOp.unlock f.forkLeft), Ev.setEating false,
         Ev.gpio false co.g2]) ∧
    (∀ (p s sw : Nat) (cos : List CycleOracle) (evs : List Ev)
      (l1 l2 : List Ev),
      philPhunction p s sw cos = some evs → evs = l1 ++ l2 →
      platesAfter 0 l1 ≤ platesAfter 0 evs) := by
  constructor
  · intro p s sw co evs f h h0
    rcases hacq : acqLoop p s 2 sw co.iters with ⟨recs, fin⟩
    cases fin with
    | none =>
      rw [cycleEvents_eq_none p s sw co recs hacq] at h
      injection h with h1 h2
      cases h2
    | some f2 =>
      by_cases hf0 : f2.failed = 0
      · rw [cycleEvents_eq_succ p s sw co recs f2 hacq hf0] at h
        injection h with h1 h2
        injection h2 with h2
        subst h2
        subst h1
        refine ⟨[Ev.logThinking, Ev.sleep, Ev.logHungry] ++
          (recs.map iterEvents).flatten, ?_⟩
        simp [eatEvents]
      · rw [cycleEvents_eq_fail p s sw co recs f2 hacq hf0] at h
        injection h with h1 h2
        injection h2 with h2
        subst h2
        exact absurd h0 hf0
  · intro p s sw cos evs l1 l2 h hsplit
    subst hsplit
    rw [platesAfter_append]
    exact platesAfter_le l2 (platesAfter 0 l1)

theorem eat_sequence_and_counter_monotone_witness :
    (∃ front, (cycleEvents 0 1 0 ⟨[⟨0, 0, false⟩], 0, 0⟩).1 = front ++
      [Ev.setEating true, Ev.incPlates, Ev.gpio true 0, Ev.logEating,
       Ev.sleep, Ev.fop (FOp.unlock 1), Ev.fop (FOp.unlock 0),
       Ev.setEating false, Ev.gpio false 0]) ∧
    platesAfter 0 [Ev.logThinking] ≤
      platesAfter 0 ((philPhunction 0 1 0 [⟨[⟨0, 0, false⟩], 0, 0⟩]).getD []) := by
  constructor
  · exact eat_sequence_and_counter_monotone.1 0 1 0 ⟨[⟨0, 0, false⟩], 0, 0⟩ _
      ⟨0, 0, 1, 2, 0⟩ (by decide) (by decide)
  · exact eat_sequence_and_counter_monotone.2 0 1 0 [⟨[⟨0, 0, false⟩], 0, 0⟩] _
      [Ev.logThinking]
      [Ev.sleep, Ev.logHungry, Ev.fop (FOp.lock 0 0), Ev.logTakesFork,
       Ev.fop (FOp.trylock 1 0), Ev.logTakesFork, Ev.setEating true,
       Ev.incPlates, Ev.gpio true 0, Ev.logEating, Ev.sleep,
       Ev.fop (FOp.unlock 1), Ev.fop (FOp.unlock 0), Ev.setEating false,
       Ev.gpio false 0]
      (by decide) (by decide)

/-- Claim C8 (amended): the integer results of the two GPIO_SetValue
calls are discarded by the thread: for any two result assignments the
cycle produces the same acquisition outcome, the same events up to the
recorded GPIO result, the same Log_Debug events (so a failure is not
logged either), the same platesCounter effect and the same fork
operations — an indicator failure is never fatal, never propagated,
and never alters the actor's progress. -/
theorem indicator_result_ignored (p s sw : Nat) (iters : List Iter)
    (g1 g2 g1' g2' : Int) :
    (cycleEvents p s sw ⟨iters, g1, g2⟩).2 =
      (cycleEvents p s sw ⟨iters, g1', g2'⟩).2 ∧
    (cycleEvents p s sw ⟨iters, g1, g2⟩).1.map scrubGpio =
      (cycleEvents p s sw ⟨iters, g1', g2'⟩).1.map scrubGpio ∧
    logsOf (cycleEvents p s sw ⟨iters, g1, g2⟩).1 =
      logsOf (cycleEvents p s sw ⟨iters, g1', g2'⟩).1 ∧
    platesAfter 0 (cycleEvents p s sw ⟨iters, g1, g2⟩).1 =
      platesAfter 0 (cycleEvents p s sw ⟨iters, g1', g2'⟩).1 ∧
    fops (cycleEvents p s sw ⟨iters, g1, g2⟩).1 =
      fops (cycleEvents p s sw ⟨iters, g1', g2'⟩).1 := by
  rcases hacq : acqLoop p s 2 sw iters with ⟨recs, fin⟩
  have hacq1 : acqLoop p s 2 sw (CycleOracle.mk iters g1 g2).iters =
      (recs, fin) := hacq
  have hacq2 : acqLoop p s 2 sw (CycleOracle.mk iters g1' g2').iters =
      (recs, fin) := hacq
  cases fin with
  | none =>
    rw [cycleEvents_eq_none _ _ _ _ _ hacq1, cycleEvents_eq_none _ _ _ _ _ hacq2]
    exact ⟨rfl, rfl, rfl, rfl, rfl⟩
  | some f =>
    by_cases h0 : f.failed = 0
    · rw [cycleEvents_eq_succ _ _ _ _ _ _ hacq1 h0,
        cycleEvents_eq_succ _ _ _ _ _ _ hacq2 h0]
      refine ⟨rfl, ?_, ?_, ?_, ?_⟩ <;>
        simp [eatEvents, scrubGpio, logsOf, isLog, fops, platesAfter,
          platesAfter_append, List.filter_append, List.map_append]
    · rw [cycleEvents_eq_fail _ _ _ _ _ _ hacq1 h0,
        cycleEvents_eq_fail _ _ _ _ _ _ hacq2 h0]
      exact ⟨rfl, rfl, rfl, rfl, rfl⟩

/-- Claim C8 (counterexample to the "logged" part): a cycle in which both
GPIO_SetValue calls fail with result 22 emits exactly the same Log_Debug
events as a cycle in which they succeed — the failure is not logged
anywhere. -/
theorem indicator_failure_not_logged_cex :
    logsOf (cycleEvents 0 1 0 ⟨[⟨0, 0, false⟩], 22, 22⟩).1 =
      logsOf (cycleEvents 0 1 0 ⟨[⟨0, 0, false⟩], 0, 0⟩).1 ∧
    logsOf (cycleEvents 0 1 0 ⟨[⟨0, 0, false⟩], 22, 22⟩).1 =
      [Ev.logThinking, Ev.logHungry, Ev.logTakesFork, Ev.logTakesFork,
       Ev.logEating] ∧
    (cycleEvents 0 1 0 ⟨[⟨0, 0, false⟩], 22, 22⟩).2 =
      (cycleEvents 0 1 0 ⟨[⟨0, 0, false⟩], 0, 0⟩).2 := by
  decide

/-- Claim C10: the result of the blocking lock of the primary fork is
unconditionally overwritten by the result of the secondary attempt: the
acquisition loop's outcome is independent of every primary-lock result,
and in an execution where the primary lock returns an error while the
trylock of the secondary succeeds, the thread proceeds to the eating
branch and unlocks a primary fork it never acquired. -/
theorem primary_lock_result_discarded :
    (∀ (p s : Nat) (tl : Int) (sw : Nat) (o : List Iter),
      (acqLoop p s tl sw o).2 = (acqLoop p s tl sw (o.map zeroPrimary)).2) ∧
    (∀ (p s sw : Nat) (r1 : Int), r1 ≠ 0 → ∀ g1 g2 : Int,
      ∃ (evs : List Ev) (f : AcqFinal),
        cycleEvents p s sw ⟨[⟨r1, 0, false⟩], g1, g2⟩ = (evs, some f) ∧
        f.failed = 0 ∧ Ev.incPlates ∈ evs ∧
        hasBadUnlock [] (fops evs) = true) := by
  constructor
  · intro p s tl sw o
    induction o generalizing p s tl sw with
    | nil => rfl
    | cons it rest ih =>
      by_cases h2 : it.r2 = 0
      · rw [acqLoop_cons_succ p s tl sw it rest h2, List.map_cons,
          acqLoop_cons_succ p s tl sw (zeroPrimary it) (rest.map zeroPrimary) h2]
      · cases ht : it.term with
        | true =>
          rw [acqLoop_cons_term p s tl sw it rest h2 ht, List.map_cons,
            acqLoop_cons_term p s tl sw (zeroPrimary it) (rest.map zeroPrimary)
              h2 ht]
          rfl
        | false =>
          rw [acqLoop_cons_cont p s tl sw it rest h2 ht, List.map_cons,
            acqLoop_cons_cont p s tl sw (zeroPrimary it) (rest.map zeroPrimary)
              h2 ht]
          exact ih s p (tl - 1) (if sw = 0 then 1 else 0)
  · intro p s sw r1 hr1 g1 g2
    have hacq : acqLoop p s 2 sw [⟨r1, 0, false⟩] =
        ([⟨p, s, 2, sw, r1, 0⟩], some ⟨0, p, s, 2, sw⟩) := by
      simp [acqLoop]
    refine ⟨_, ⟨0, p, s, 2, sw⟩,
      cycleEvents_eq_succ p s sw ⟨[⟨r1, 0, false⟩], g1, g2⟩ _ _ hacq rfl,
      rfl, ?_, ?_⟩
    · simp [iterEvents, eatEvents]
    · simp [fops, iterEvents, eatEvents, hasBadUnlock, heldStep, hr1]

theorem primary_lock_result_discarded_witness :
    ((7 : Int) ≠ 0) ∧
    ((acqLoop 2 3 2 0 [⟨5, 4, true⟩]).2 =
      (acqLoop 2 3 2 0 ([⟨5, 4, true⟩].map zeroPrimary)).2) ∧
    (∃ (evs : List Ev) (f : AcqFinal),
      cycleEvents 0 1 0 ⟨[⟨7, 0, false⟩], 0, 0⟩ = (evs, some f) ∧
      f.failed = 0 ∧ Ev.incPlates ∈ evs ∧
      hasBadUnlock [] (fops evs) = true) :=
  ⟨by decide, primary_lock_result_discarded.1 2 3 2 0 [⟨5, 4, true⟩],
    primary_lock_result_discarded.2 0 1 0 7 (by decide) 0 0⟩

theorem runInits_ok_iff (res : Nat → Int) :
    ∀ l : List Nat, (runInits res l).2 = true ↔ ∀ i ∈ l, res i = 0 := by
  intro l
  induction l with
  | nil => simp [runInits]
  | cons i rest ih =>
    by_cases h : res i = 0
    · simp [runInits, h, ih]
    · simp [runInits, h]

theorem runCreates_ok_iff (res : Nat → Int) :
    ∀ l : List Nat, (runCreates res l).2 = true ↔ ∀ i ∈ l, res i = 0 := by
  intro l
  induction l with
  | nil => simp [runCreates]
  | cons i rest ih =>
    by_cases h : res i = 0
    · simp [runCreates, h, ih]
    · simp [runCreates, h]

theorem countInitEv_append (j : Nat) :
    ∀ a b : List MEv, countInitEv j (a ++ b) = countInitEv j a + countInitEv j b := by
  intro a
  induction a with
  | nil => intro b; simp [countInitEv]
  | cons e rest ih => intro b; cases e <;> simp [countInitEv, ih] <;> omega

theorem countCreateEv_append (j : Nat) :
    ∀ a b : List MEv,
      countCreateEv j (a ++ b) = countCreateEv j a + countCreateEv j b := by
  intro a
  induction a with
  | nil => intro b; simp [countCreateEv]
  | cons e rest ih => intro b; cases e <;> simp [countCreateEv, ih] <;> omega

theorem countInitEv_runInits (res : Nat → Int) (j : Nat) :
    ∀ l : List Nat, countInitEv j (runInits res l).1 ≤ l.count j := by
  intro l
  induction l with
  | nil => simp [runInits, countInitEv]
  | cons i rest ih =>
    by_cases h : res i = 0 <;>
      simp [runInits, h, countInitEv, List.count_cons] <;>
      by_cases hj : i = j <;> simp [hj] <;> omega

theorem countCreateEv_runCreates (res : Nat → Int) (j : Nat) :
    ∀ l : List Nat, countCreateEv j (runCreates res l).1 ≤ l.count j := by
  intro l
  induction l with
  | nil => simp [runCreates, countCreateEv]
  | cons i rest ih =>
    by_cases h : res i = 0 <;>
      simp [runCreates, h, countCreateEv, List.count_cons] <;>
      by_cases hj : i = j <;> simp [hj] <;> omega

theorem countInitEv_runCreates (res : Nat → Int) (j : Nat) :
    ∀ l : List Nat, countInitEv j (runCreates res l).1 = 0 := by
  intro l
  induction l with
  | nil => simp [runCreates, countInitEv]
  | cons i rest ih => by_cases h : res i = 0 <;> simp [runCreates, h, countInitEv, ih]

theorem countCreateEv_runInits (res : Nat → Int) (j : Nat) :
    ∀ l : List Nat, countCreateEv j (runInits res l).1 = 0 := by
  intro l
  induction l with
  | nil => simp [runInits, countCreateEv]
  | cons i rest ih => by_cases h : res i = 0 <;> simp [runInits, h, countCreateEv, ih]

theorem countInitEv_statusLoop (j : Nat) :
    ∀ t : Nat, countInitEv j (List.replicate t [MEv.logStatus, MEv.sleep]).flatten = 0 := by
  intro t
  induction t with
  | zero => simp [countInitEv]
  | succ n ih => simp [List.replicate_succ, countInitEv, ih]

theorem countCreateEv_statusLoop (j : Nat) :
    ∀ t : Nat, countCreateEv j (List.replicate t [MEv.logStatus, MEv.sleep]).flatten = 0 := by
  intro t
  induction t with
  | zero => simp [countCreateEv]
  | succ n ih => simp [List.replicate_succ, countCreateEv, ih]

theorem count_range5_le_one (j : Nat) : List.count j [0, 1, 2, 3, 4] ≤ 1 := by
  simp [List.count_cons, List.count_nil]
  split_ifs <;> omega

theorem createThread_not_mem_runInits (res : Nat → Int) (j : Nat) (r : Int) :
    ∀ l : List Nat, MEv.createThread j r ∉ (runInits res l).1 := by
  intro l
  induction l with
  | nil => simp [runInits]
  | cons i rest ih => by_cases h : res i = 0 <;> simp [runInits, h, ih]

theorem logExiting_not_mem_runInits (res : Nat → Int) :
    ∀ l : List Nat, MEv.logExiting ∉ (runInits res l).1 := by
  intro l
  induction l with
  | nil => simp [runInits]
  | cons i rest ih => by_cases h : res i = 0 <;> simp [runInits, h, ih]

theorem mem_range5_iff (i : Nat) : i ∈ [0, 1, 2, 3, 4] ↔ i < 5 := by
  simp
  omega

theorem mainRun_eq_initfail (ir cr : Nat → Int) (ticks : Nat)
    (h : (runInits ir [0, 1, 2, 3, 4]).2 = false) :
    mainRun ir cr ticks =
      (MEv.logStarting :: (runInits ir [0, 1, 2, 3, 4]).1, 1) := by
  simp [mainRun, h]

theorem mainRun_eq_createfail (ir cr : Nat → Int) (ticks : Nat)
    (h1 : (runInits ir [0, 1, 2, 3, 4]).2 = true)
    (h2 : (runCreates cr [0, 1, 2, 3, 4]).2 = false) :
    mainRun ir cr ticks =
      (MEv.logStarting :: (runInits ir [0, 1, 2, 3, 4]).1 ++
        (runCreates cr [0, 1, 2, 3, 4]).1, 1) := by
  simp [mainRun, h1, h2]

theorem mainRun_eq_ok (ir cr : Nat → Int) (ticks : Nat)
    (h1 : (runInits ir [0, 1, 2, 3, 4]).2 = true)
    (h2 : (runCreates cr [0, 1, 2, 3, 4]).2 = true) :
    mainRun ir cr ticks =
      (MEv.logStarting :: (runInits ir [0, 1, 2, 3, 4]).1 ++
        (runCreates cr [0, 1, 2, 3, 4]).1 ++
        (List.replicate ticks [MEv.logStatus, MEv.sleep]).flatten ++
        [MEv.logExiting], 0) := by
  simp [mainRun, h1, h2]

theorem mem_runInits (res : Nat → Int) :
    ∀ (l : List Nat) (e : MEv), e ∈ (runInits res l).1 →
      ∃ i r, e = MEv.initMutex i r := by
  intro l
  induction l with
  | nil => intro e he; simp [runInits] at he
  | cons i rest ih =>
    intro e he
    by_cases h : res i = 0 <;> simp [runInits, h] at he
    · rcases he with he | he
      · exact ⟨i, 0, he⟩
      · exact ih e he
    · exact ⟨i, res i, he⟩

theorem mem_runCreates (res : Nat → Int) :
    ∀ (l : List Nat) (e : MEv), e ∈ (runCreates res l).1 →
      ∃ i r, e = MEv.createThread i r := by
  intro l
  induction l with
  | nil => intro e he; simp [runCreates] at he
  | cons i rest ih =>
    intro e he
    by_cases h : res i = 0 <;> simp [runCreates, h] at he
    · rcases he with he | he
      · exact ⟨i, 0, he⟩
      · exact ih e he
    · exact ⟨i, res i, he⟩

theorem mem_statusLoop :
    ∀ (t : Nat) (e : MEv),
      e ∈ (List.replicate t [MEv.logStatus, MEv.sleep]).flatten →
      e = MEv.logStatus ∨ e = MEv.sleep := by
  intro t
  induction t with
  | zero => intro e he; simp at he
  | succ n ih =>
    intro e he
    simp [List.replicate_succ] at he
    rcases he with he | he | he
    · exact Or.inl he
    · exact Or.inr he
    · exact ih e (by simpa using he)

/-- Claim C6: if any fork-mutex initialisation or any philosopher-thread
creation fails, main exits immediately with status 1 — before any thread
creation when a mutex init failed, never reaching the monitor loop, and
attempting each initialisation at most once (no retry); when every
initialisation and creation succeeds, main returns 0 after cancellation.
The exit status is always 0 or 1. -/
theorem startup_failure_aborts_with_nonzero (ir cr : Nat → Int) (ticks : Nat) :
    ((mainRun ir cr ticks).2 = 0 ∨ (mainRun ir cr ticks).2 = 1) ∧
    ((mainRun ir cr ticks).2 = 0 ↔
      (∀ i < 5, ir i = 0) ∧ (∀ i < 5, cr i = 0)) ∧
    ((¬ ∀ i < 5, ir i = 0) →
      (∀ j r, MEv.createThread j r ∉ (mainRun ir cr ticks).1) ∧
      MEv.logExiting ∉ (mainRun ir cr ticks).1) ∧
    (∀ j, countInitEv j (mainRun ir cr ticks).1 ≤ 1 ∧
      countCreateEv j (mainRun ir cr ticks).1 ≤ 1) := by
  by_cases hi : (runInits ir [0, 1, 2, 3, 4]).2 = true
  · have hiall : ∀ i < 5, ir i = 0 := fun i hlt =>
      (runInits_ok_iff ir [0, 1, 2, 3, 4]).mp hi i ((mem_range5_iff i).mpr hlt)
    by_cases hc : (runCreates cr [0, 1, 2, 3, 4]).2 = true
    · have hcall : ∀ i < 5, cr i = 0 := fun i hlt =>
        (runCreates_ok_iff cr [0, 1, 2, 3, 4]).mp hc i ((mem_range5_iff i).mpr hlt)
      rw [mainRun_eq_ok ir cr ticks hi hc]
      refine ⟨Or.inl rfl, ?_, ?_, ?_⟩
      · exact iff_of_true rfl ⟨hiall, hcall⟩
      · intro hbad; exact absurd hiall hbad
      · intro j
        constructor
        · have hri := countInitEv_runInits ir j [0, 1, 2, 3, 4]
          have h5 := count_range5_le_one j
          simp [countInitEv, countInitEv_append, countInitEv_runCreates,
            countInitEv_statusLoop]
          omega
        · have hrc := countCreateEv_runCreates cr j [0, 1, 2, 3, 4]
          have h5 := count_range5_le_one j
          simp [countCreateEv, countCreateEv_append, countCreateEv_runInits,
            countCreateEv_statusLoop]
          omega
    · have hc2 : (runCreates cr [0, 1, 2, 3, 4]).2 = false := by
        revert hc; cases (runCreates cr [0, 1, 2, 3, 4]).2 <;> simp
      rw [mainRun_eq_createfail ir cr ticks hi hc2]
      refine ⟨Or.inr rfl, ?_, ?_, ?_⟩
      · refine iff_of_false (by simp) ?_
        intro hall
        exact hc ((runCreates_ok_iff cr [0, 1, 2, 3, 4]).mpr
          (fun i him => hall.2 i ((mem_range5_iff i).mp him)))
      · intro hbad; exact absurd hiall hbad
      · intro j
        constructor
        · have hri := countInitEv_runInits ir j [0, 1, 2, 3, 4]
          have h5 := count_range5_le_one j
          simp [countInitEv, countInitEv_append, countInitEv_runCreates]
          omega
        · have hrc := countCreateEv_runCreates cr j [0, 1, 2, 3, 4]
          have h5 := count_range5_le_one j
          simp [countCreateEv, countCreateEv_append, countCreateEv_runInits]
          omega
  · have hi2 : (runInits ir [0, 1, 2, 3, 4]).2 = false := by
      revert hi; cases (runInits ir [0, 1, 2, 3, 4]).2 <;> simp
    rw [mainRun_eq_initfail ir cr ticks hi2]
    refine ⟨Or.inr rfl, ?_, ?_, ?_⟩
    · refine iff_of_false (by simp) ?_
      intro hall
      exact hi ((runInits_ok_iff ir [0, 1, 2, 3, 4]).mpr
        (fun i him => hall.1 i ((mem_range5_iff i).mp him)))
    · intro _
      constructor
      · intro j r hmem
        simp only [List.mem_cons] at hmem
        rcases hmem with hmem | hmem
        · cases hmem
        · rcases mem_runInits ir [0, 1, 2, 3, 4] _ hmem with ⟨i2, r2, he⟩
          cases he
      · intro hmem
        simp only [List.mem_cons] at hmem
        rcases hmem with hmem | hmem
        · cases hmem
        · rcases mem_runInits ir [0, 1, 2, 3, 4] _ hmem with ⟨i2, r2, he⟩
          cases he
    · intro j
      constructor
      · simp only [countInitEv]
        have := countInitEv_runInits ir j [0, 1, 2, 3, 4]
        have h5 := count_range5_le_one j
        omega
      · simp only [countCreateEv]
        have := countCreateEv_runInits ir j [0, 1, 2, 3, 4]
        omega

theorem startup_failure_aborts_with_nonzero_witness :
    (mainRun (fun i => if i = 2 then 5 else 0) (fun _ => 0) 0).2 = 1 ∧
    (∀ j r, MEv.createThread j r ∉
      (mainRun (fun i => if i = 2 then 5 else 0) (fun _ => 0) 0).1) ∧
    MEv.logExiting ∉
      (mainRun (fun i => if i = 2 then 5 else 0) (fun _ => 0) 0).1 ∧
    countInitEv 2
      (mainRun (fun i => if i = 2 then 5 else 0) (fun _ => 0) 0).1 ≤ 1 := by
  have h := startup_failure_aborts_with_nonzero
    (fun i => if i = 2 then 5 else 0) (fun _ => 0) 0
  have hbad : ¬ ∀ i < 5, (fun i => if i = 2 then (5 : Int) else 0) i = 0 := by
    intro hall
    have h2 := hall 2 (by omega)
    simp at h2
  refine ⟨?_, (h.2.2.1 hbad).1, (h.2.2.1 hbad).2, (h.2.2.2 2).1⟩
  rcases h.1 with h0 | h1
  · exact absurd ((h.2.1.mp h0).1) hbad
  · exact h1

theorem mem_mainRun (ir cr : Nat → Int) (ticks : Nat) :
    ∀ e ∈ (mainRun ir cr ticks).1,
      e = MEv.logStarting ∨ (∃ i r, e = MEv.initMutex i r) ∨
      (∃ i r, e = MEv.createThread i r) ∨ e = MEv.logStatus ∨
      e = MEv.sleep ∨ e = MEv.logExiting := by
  intro e he
  by_cases hi : (runInits ir [0, 1, 2, 3, 4]).2 = true
  · by_cases hc : (runCreates cr [0, 1, 2, 3, 4]).2 = true
    · rw [mainRun_eq_ok ir cr ticks hi hc] at he
      rcases List.mem_cons.mp he with he | he
      · exact Or.inl he
      · rcases List.mem_append.mp he with he | he
        · rcases List.mem_append.mp he with he | he
          · rcases List.mem_append.mp he with he | he
            · exact Or.inr (Or.inl (mem_runInits ir [0, 1, 2, 3, 4] e he))
            · exact Or.inr (Or.inr (Or.inl
                (mem_runCreates cr [0, 1, 2, 3, 4] e he)))
          · rcases mem_statusLoop ticks e he with he | he
            · exact Or.inr (Or.inr (Or.inr (Or.inl he)))
            · exact Or.inr (Or.inr (Or.inr (Or.inr (Or.inl he))))
        · simp only [List.mem_singleton] at he
          exact Or.inr (Or.inr (Or.inr (Or.inr (Or.inr he))))
    · have hc2 : (runCreates cr [0, 1, 2, 3, 4]).2 = false := by
        revert hc; cases (runCreates cr [0, 1, 2, 3, 4]).2 <;> simp
      rw [mainRun_eq_createfail ir cr ticks hi hc2] at he
      rcases List.mem_cons.mp he with he | he
      · exact Or.inl he
      · rcases List.mem_append.mp he with he | he
        · exact Or.inr (Or.inl (mem_runInits ir [0, 1, 2, 3, 4] e he))
        · exact Or.inr (Or.inr (Or.inl (mem_runCreates cr [0, 1, 2, 3, 4] e he)))
  · have hi2 : (runInits ir [0, 1, 2, 3, 4]).2 = false := by
      revert hi; cases (runInits ir [0, 1, 2, 3, 4]).2 <;> simp
    rw [mainRun_eq_initfail ir cr ticks hi2] at he
    rcases List.mem_cons.mp he with he | he
    · exact Or.inl he
    · exact Or.inr (Or.inl (mem_runInits ir [0, 1, 2, 3, 4] e he))

/-- Claim C4 (amended): once the cancellation flag is observed, main's
monitor loop exits, the final message is logged last, and the process
returns 0 — but no philosopher thread is joined and no fork mutex is
released or destroyed: the event trace of main contains no
`pthread_join` and no `pthread_mutex_destroy` on any path. -/
theorem shutdown_without_join_or_release (ir cr : Nat → Int) (ticks : Nat) :
    (∀ j, MEv.joinThread j ∉ (mainRun ir cr ticks).1) ∧
    (∀ j, MEv.destroyMutex j ∉ (mainRun ir cr ticks).1) ∧
    ((∀ i < 5, ir i = 0) → (∀ i < 5, cr i = 0) →
      (mainRun ir cr ticks).2 = 0 ∧
      (mainRun ir cr ticks).1.getLast? = some MEv.logExiting) := by
  refine ⟨?_, ?_, ?_⟩
  · intro j hmem
    rcases mem_mainRun ir cr ticks _ hmem with he | ⟨i, r, he⟩ | ⟨i, r, he⟩
      | he | he | he <;> cases he
  · intro j hmem
    rcases mem_mainRun ir cr ticks _ hmem with he | ⟨i, r, he⟩ | ⟨i, r, he⟩
      | he | he | he <;> cases he
  · intro hiall hcall
    have hi : (runInits ir [0, 1, 2, 3, 4]).2 = true :=
      (runInits_ok_iff ir [0, 1, 2, 3, 4]).mpr
        (fun i him => hiall i ((mem_range5_iff i).mp him))
    have hc : (runCreates cr [0, 1, 2, 3, 4]).2 = true :=
      (runCreates_ok_iff cr [0, 1, 2, 3, 4]).mpr
        (fun i him => hcall i ((mem_range5_iff i).mp him))
    rw [mainRun_eq_ok ir cr ticks hi hc]
    refine ⟨rfl, ?_⟩
    show (MEv.logStarting :: ((runInits ir [0, 1, 2, 3, 4]).1 ++
        (runCreates cr [0, 1, 2, 3, 4]).1 ++
        (List.replicate ticks [MEv.logStatus, MEv.sleep]).flatten ++
        [MEv.logExiting])).getLast? = some MEv.logExiting
    rw [← List.cons_append, List.getLast?_concat]

theorem shutdown_without_join_or_release_witness :
    (MEv.joinThread 0 ∉ (mainRun (fun _ => 0) (fun _ => 0) 1).1) ∧
    (MEv.destroyMutex 0 ∉ (mainRun (fun _ => 0) (fun _ => 0) 1).1) ∧
    ((mainRun (fun _ => 0) (fun _ => 0) 1).2 = 0 ∧
      (mainRun (fun _ => 0) (fun _ => 0) 1).1.getLast? = some MEv.logExiting) := by
  have h := shutdown_without_join_or_release (fun _ => 0) (fun _ => 0) 1
  exact ⟨h.1 0, h.2.1 0, h.2.2 (fun i _ => rfl) (fun i _ => rfl)⟩

/-- Claim C4 (counterexample): in the run where all five mutex
initialisations and all five thread creations succeed and the
cancellation flag is observed after one monitor tick, main's exit status
is 0 but its event trace contains no `pthread_join` of any philosopher
thread and no `pthread_mutex_destroy` of any fork: the claimed
set-flag / join-all-threads / release-resources stop sequence is not
what the code does — the threads are never joined and the resources are
never released. -/
theorem shutdown_no_join_cex :
    (mainRun (fun _ => 0) (fun _ => 0) 1).2 = 0 ∧
    MEv.joinThread 0 ∉ (mainRun (fun _ => 0) (fun _ => 0) 1).1 ∧
    MEv.destroyMutex 0 ∉ (mainRun (fun _ => 0) (fun _ => 0) 1).1 ∧
    ((mainRun (fun _ => 0) (fun _ => 0) 1).1.all
      (fun e => !(isJoin e) && !(isDestroy e))) = true := by
  decide
